import Mathlib

/-!
Verification of the internal-coordinate engine of `pysisyphus`
(`pysisyphus/InternalCoordinates.py`), shallowly embedded over exact
rationals.

Embedding conventions, used throughout and referenced from the doc
comments below:

* Machine floats become `ℚ`.  The transcendental functions the source
  calls (`np.sqrt`, `np.arccos`, `np.sin`, `np.cos`, `np.exp`) and the
  constant `np.pi` have no exact rational counterpart; they are supplied
  as a record of function parameters (`NumFns`).  Theorems quantify over
  that record, so they hold in particular for rational approximations of
  the true functions.
* Wherever the source compares two nonnegative quantities through a
  square root (bond detection `pdist(coords) <= factor*(r1+r2)`, the
  back-transform test `sqrt(mean(d**2)) < thresh` with its positive
  default threshold `1e-6`), the embedding compares the squares instead;
  the real square root is strictly monotone on nonnegative numbers, so
  the branch taken is identical.
* Fallible Python statements (`IndexError` from popping an empty list,
  `NameError` from an undefined global, `AttributeError` from a missing
  attribute, numpy broadcast `ValueError`, failing `assert`) are
  embedded in `Except PyErr`.
* Python `set` iteration order is unspecified; the embedding fixes the
  ascending order for integer sets and first-occurrence order when a
  `set` is built from a list.  Every property proved or refuted below is
  independent of that choice.
-/

set_option allowUnsafeReducibility true in
attribute [semireducible] Rat.add Rat.mul Rat.sub Rat.inv Rat.blt

/-- Python exception kinds raised by the embedded code. -/
inductive PyErr where
  | nameError : String → PyErr
  | attributeError : String → PyErr
  | indexError : String → PyErr
  | valueError : String → PyErr
  | assertionError : String → PyErr
deriving DecidableEq

deriving instance DecidableEq for Except

/-- Boolean error test on `Except` results. -/
def exceptIsError {ε α : Type} : Except ε α → Bool
  | .error _ => true
  | .ok _ => false

/-- A Cartesian 3-vector of exact rationals (one row of `coords.reshape(-1, 3)`). -/
abbrev V3 := ℚ × ℚ × ℚ

/-- Dot product of two 3-vectors (`np.dot` on length-3 arrays). -/
def dot (a b : V3) : ℚ := a.1 * b.1 + a.2.1 * b.2.1 + a.2.2 * b.2.2

/-- Cross product of two 3-vectors (`np.cross`). -/
def cross (a b : V3) : V3 :=
  (a.2.1 * b.2.2 - a.2.2 * b.2.1,
   a.2.2 * b.1 - a.1 * b.2.2,
   a.1 * b.2.1 - a.2.1 * b.1)

/-- Componentwise division of a 3-vector by a scalar (`vec / s`). -/
def sdiv (a : V3) (q : ℚ) : V3 := (a.1 / q, a.2.1 / q, a.2.2 / q)

/-- Squared Euclidean distance between two points; `pdist` entries squared. -/
def dist2 (a b : V3) : ℚ := dot (a - b) (a - b)

/-- Modelled from the spec: the covalent-radius table `COVALENT_RADII` lives in
`pysisyphus.elem_data`, which is not under `src/`.  The source's own docstring
(in `set_rho`) fixes hydrogen at 0.59 Bohr and carbon at 1.44 Bohr; oxygen is
set to 1.24 Bohr (the standard ≈0.66 Å covalent radius the spec's glossary
refers to).  Only these elements occur in the concrete inputs below; the
default value is never consulted by them. -/
def CR : String → ℚ
  | "h" => 59 / 100
  | "he" => 46 / 100
  | "c" => 144 / 100
  | "o" => 124 / 100
  | _ => 1

/-- Input geometry: element symbols and Cartesian coordinates
(`geom.coords.reshape(-1, 3)`), in atomic units.  Element symbols are stored
lowercase in the embedding; the source lowercases every symbol (`a.lower()`)
before a radius or period lookup, so case carries no information. -/
structure Geom where
  atoms : List String
  coords3d : List V3

/-- A geometry is well formed when it has one coordinate row per atom
(`geom.coords` has length `3 * len(geom.atoms)` in the source). -/
def geomWellFormed (g : Geom) : Prop :=
  g.coords3d.length = g.atoms.length

/-- All unordered pairs of a list in `itertools.combinations(l, 2)` order. -/
def comb2 {α : Type} : List α → List (α × α)
  | [] => []
  | x :: xs => (xs.map fun y => (x, y)) ++ comb2 xs

/-- Squared condensed distance matrix: the squares of `pdist(coords)`, in the
same pair order. -/
def cdm2 (coords : List V3) : List ℚ :=
  (comb2 coords).map fun p => dist2 p.1 p.2

/-- One pass of the `for` loop inside `RedundantCoords.merge_fragments`: scan
the remaining fragments for the first one intersecting `popped`; if found,
remove it and append the union at the end (`fragments.remove(frag);
fragments.append(popped | frag); break`), else report `none`.  The scan
preserves the list length when it succeeds. -/
def scanMerge (popped : Finset ℕ) : List (Finset ℕ) → Option (List (Finset ℕ))
  | [] => none
  | frag :: rest =>
    if (popped ∩ frag).Nonempty then some (rest ++ [popped ∪ frag])
    else (scanMerge popped rest).map (frag :: ·)

/-- Recursion core of `RedundantCoords.merge_fragments`, structural on a fuel
argument so that the definition reduces inside the kernel.  Each source-level
recursive call shrinks the fragment list by one (`scanMerge` preserves length
and the pop removes one element), so the wrapper's fuel `length + 1` is never
exhausted; the fuel-0 branch is unreachable. -/
def mergeFragmentsGo : ℕ → List (Finset ℕ) → Except PyErr (List (Finset ℕ))
  | 0, _ => .error (.valueError "unreachable: fuel exhausted")
  | _ + 1, [] => .error (.indexError "pop from empty list")
  | _ + 1, [f] => .ok [f]
  | fuel + 1, popped :: rest =>
    match scanMerge popped rest with
    | some merged => mergeFragmentsGo fuel merged
    | none => .ok (rest ++ [popped])

/-- Embeds `RedundantCoords.merge_fragments`.  Pop the first fragment; if it
intersects one of the remaining fragments, replace that fragment by the union
(appended at the end) and recurse; otherwise append the popped fragment at the
end and return — note the source returns without re-examining the remaining
fragments in that case.  `fragments.pop(0)` on an empty list raises
`IndexError`. -/
def merge_fragments (fragments : List (Finset ℕ)) : Except PyErr (List (Finset ℕ)) :=
  mergeFragmentsGo (fragments.length + 1) fragments

/-- Embeds `RedundantCoords.set_bond_indices` (default `factor=1.3`).  Bond
detection compares each condensed distance with `factor * (cov_rad1 +
cov_rad2)`; both sides are nonnegative, so the embedding compares the squares
(see the header).  If fragment merging leaves more than one fragment, line 149
of the source calls `connect_fragments(cdm, fragments)`: the bare name is
resolved in module scope, where no such function is defined (the repository
only defines the method `RedundantCoords.connect_fragments`), so the call
raises `NameError`.  Finally the source asserts that the union of all bonded
pairs covers every atom index.  The union is embedded as a fold from `∅`,
which agrees with the source's `reduce` over the nonempty list of pairs. -/
def set_bond_indices (geom : Geom) (factor : ℚ := 13 / 10) :
    Except PyErr (List (ℕ × ℕ)) :=
  let coords := geom.coords3d
  let cdm2v := cdm2 coords
  let atom_indices := comb2 (List.range coords.length)
  let cov_rad_sums := atom_indices.map fun p =>
    factor * (CR (geom.atoms.getD p.1 "") + CR (geom.atoms.getD p.2 ""))
  let bond_flags := List.zipWith (fun d2 s => decide (d2 ≤ s ^ 2)) cdm2v cov_rad_sums
  let bond_indices := ((atom_indices.zip bond_flags).filter (·.2)).map (·.1)
  let bond_ind_sets := bond_indices.map fun p => ({p.1, p.2} : Finset ℕ)
  match merge_fragments bond_ind_sets with
  | .error e => .error e
  | .ok fragments =>
    if fragments.length ≠ 1 then
      .error (.nameError "connect_fragments")
    else
      let bonded_set := bond_indices.foldl (fun s p => s ∪ {p.1, p.2}) (∅ : Finset ℕ)
      if bonded_set = Finset.range geom.atoms.length then .ok bond_indices
      else .error (.assertionError "Found unbonded atoms!")

/-- Concrete fragmented geometry: four hydrogens forming two well separated
H₂ molecules (bond threshold `1.3 * (0.59 + 0.59) = 1.534` Bohr; the two
intramolecular distances are 1 Bohr, all others at least 9 Bohr). -/
def fourHGeom : Geom :=
  { atoms := ["h", "h", "h", "h"]
  , coords3d := [(0, 0, 0), (1, 0, 0), (10, 0, 0), (11, 0, 0)] }


/-- Sorted elements of a finite set of naturals; the embedding's
determinization of Python set iteration (ascending order).  Insertion sort is
used because it is structurally recursive, so concrete instances evaluate
inside the kernel. -/
def sortedElems (s : Finset ℕ) : List ℕ :=
  Quot.lift (List.insertionSort (· ≤ ·))
    (fun l1 l2 h =>
      List.eq_of_perm_of_sorted
        (((List.perm_insertionSort _ l1).trans h).trans
          (List.perm_insertionSort _ l2).symm)
        (List.sorted_insertionSort _ l1) (List.sorted_insertionSort _ l2))
    s.val

/-- Embeds `RedundantCoords.sort_by_central`: asserts the two sets share
exactly one (central) index and unpacks the two terminal indices from the
difference `union - central` (a Python unpacking of a 2-element set; any other
size raises `ValueError`). -/
def sort_by_central (s1 s2 : Finset ℕ) : Except PyErr ((ℕ × ℕ × ℕ) × ℕ) :=
  let central := s1 ∩ s2
  let union := s1 ∪ s2
  if central.card = 1 then
    match sortedElems central, sortedElems (union \ central) with
    | [c], [t1, t2] => .ok ((t1, c, t2), c)
    | _, _ => .error (.valueError "unpacking mismatch")
  else .error (.assertionError "len(central_set) == 1")

/-- First-occurrence deduplication; the embedding's determinization of the
Python set `{frozenset(bi) for bi in self.bond_indices}`. -/
def eraseDupsKeepFirstAux (seen : List (Finset ℕ)) :
    List (Finset ℕ) → List (Finset ℕ)
  | [] => []
  | x :: xs =>
    if x ∈ seen then eraseDupsKeepFirstAux seen xs
    else x :: eraseDupsKeepFirstAux (seen ++ [x]) xs

/-- First-occurrence deduplication entry point. -/
def eraseDupsKeepFirst (l : List (Finset ℕ)) : List (Finset ℕ) :=
  eraseDupsKeepFirstAux [] l

/-- Embeds `RedundantCoords.set_bending_indices`: for every pair of distinct
bond sets whose union has three atoms, emit the triple returned by
`sort_by_central`. -/
def set_bending_indices (bond_indices : List (ℕ × ℕ)) :
    Except PyErr (List (ℕ × ℕ × ℕ)) :=
  let bond_sets := eraseDupsKeepFirst (bond_indices.map fun p => ({p.1, p.2} : Finset ℕ))
  (comb2 bond_sets).foldlM
    (fun acc pr =>
      if (pr.1 ∪ pr.2).card = 3 then do
        let r ← sort_by_central pr.1 pr.2
        pure (acc ++ [r.1])
      else pure acc)
    []

/-- One step of the `for bond, bend in itertools.product(...)` loop body of
`RedundantCoords.set_dihedral_indices`, acting on the accumulated
`(dihedral_indices, dihedral_sets)` state. -/
def dihedralStep (st : List (List ℕ) × List (Finset ℕ)) (bo : ℕ × ℕ)
    (be : ℕ × ℕ × ℕ) : Except PyErr (List (List ℕ) × List (Finset ℕ)) :=
  let central := be.2.1
  let bes : Finset ℕ := {be.1, be.2.2}
  let bois : Finset ℕ := {bo.1, bo.2}
  if (bes ∩ bois).card = 1 ∧ central ∉ bois then
    let fullBend : Finset ℕ := {be.1, be.2.1, be.2.2}
    match sortedElems (bois ∩ fullBend) with
    | [intersect] =>
      let bondList := [bo.1, bo.2]
      let intersect_ind := bondList.indexOf intersect
      let term_ind := 1 - intersect_ind
      let terminal := bondList.getD term_ind 0
      let dihedral_ind :=
        if intersect = be.1 then [terminal, be.1, be.2.1, be.2.2]
        else [be.1, be.2.1, be.2.2, terminal]
      let dset := dihedral_ind.toFinset
      if dset ∈ st.2 then .ok st
      else .ok (st.1 ++ [dihedral_ind], st.2 ++ [dset])
    | _ => .error (.valueError "unpacking mismatch")
  else .ok st

/-- Embeds `RedundantCoords.set_dihedral_indices`: for every (bond, bend) pair
where the bond meets the bend's terminal set in exactly one atom and avoids
the bend's central atom, append the 4-atom chain with the new terminal on the
matching end, deduplicating by the unordered atom set. -/
def set_dihedral_indices (bond_indices : List (ℕ × ℕ))
    (bending_indices : List (ℕ × ℕ × ℕ)) : Except PyErr (List (List ℕ)) := do
  let prodList := bond_indices.flatMap fun bo => bending_indices.map fun be => (bo, be)
  let st ← prodList.foldlM (fun st pr => dihedralStep st pr.1 pr.2) ([], [])
  pure st.1


/-- Scalar multiple of a 3-vector. -/
def smulV (q : ℚ) (a : V3) : V3 := (q * a.1, q * a.2.1, q * a.2.2)

/-- The record of transcendental functions and constants the source calls on
floats (`np.sqrt`, `np.arccos`, `np.sin`, `np.cos`, `np.exp`, `np.pi`); see
the file header.  Every theorem below quantifies over this record. -/
structure NumFns where
  sqrtq : ℚ → ℚ
  arccosq : ℚ → ℚ
  sinq : ℚ → ℚ
  cosq : ℚ → ℚ
  expq : ℚ → ℚ
  piq : ℚ

/-- A concrete instantiation of `NumFns` used by witnesses: every function is
the identity and `piq` is `355/113`.  Nothing proved below depends on the
values, so any instantiation would do. -/
def idFns : NumFns :=
  { sqrtq := id, arccosq := id, sinq := id, cosq := id, expq := id
  , piq := 355 / 113 }

/-- Embeds the local helper `are_parallel` of `RedundantCoords.calc_bend`
(`thresh=1e-6`). -/
def are_parallel (fns : NumFns) (v1 v2 : V3) : Bool :=
  decide (|fns.arccosq (dot v1 v2)| > fns.piq - 1 / 1000000)

/-- The `np.zeros_like(coords)` array: one zero 3-vector per atom row. -/
def zerosLike (coords : List V3) : List V3 :=
  List.replicate coords.length ((0, 0, 0) : V3)

/-- Row flattening (`row.flatten()` on an `(natoms, 3)` array). -/
def flatten3 (l : List V3) : List ℚ :=
  l.flatMap fun v => [v.1, v.2.1, v.2.2]

/-- Embeds `RedundantCoords.calc_stretch` with `grad=True`.  Returns the bond
length and the gradient row before flattening (the source builds the row as an
`(natoms, 3)` array: `+bond_normed` at `m`, `-bond_normed` at `n`). -/
def calc_stretch (fns : NumFns) (coords : List V3) (bond_ind : ℕ × ℕ) :
    ℚ × List V3 :=
  let n := bond_ind.1
  let m := bond_ind.2
  let bond := coords.getD m (0, 0, 0) - coords.getD n (0, 0, 0)
  let bond_length := fns.sqrtq (dot bond bond)
  let bond_normed := sdiv bond bond_length
  let row := ((zerosLike coords).set m bond_normed).set n (-bond_normed)
  (bond_length, row)

/-- Embeds `RedundantCoords.calc_bend` with `grad=True` (terminal `m`, center
`o`, terminal `n`; Eq. (24) of the optimization review the source cites,
including the auxiliary-axis fallback for parallel `u`, `v`).  The row
assignments follow the source order: `m`, then `o` (minus the sum of both
terms), then `n`. -/
def calc_bend (fns : NumFns) (coords : List V3) (angle_ind : ℕ × ℕ × ℕ) :
    ℚ × List V3 :=
  let m := angle_ind.1
  let o := angle_ind.2.1
  let n := angle_ind.2.2
  let u_dash := coords.getD m (0, 0, 0) - coords.getD o (0, 0, 0)
  let v_dash := coords.getD n (0, 0, 0) - coords.getD o (0, 0, 0)
  let u_norm := fns.sqrtq (dot u_dash u_dash)
  let v_norm := fns.sqrtq (dot v_dash v_dash)
  let u := sdiv u_dash u_norm
  let v := sdiv v_dash v_norm
  let angle_rad := fns.arccosq (dot u v)
  let w_dash :=
    if are_parallel fns u v then
      let tmp1 : V3 := (1, -1, 1)
      let par := are_parallel fns u tmp1 && are_parallel fns v tmp1
      let tmp_vec : V3 := if par then (-1, 1, 1) else tmp1
      cross u tmp_vec
    else cross u v
  let w_norm := fns.sqrtq (dot w_dash w_dash)
  let w := sdiv w_dash w_norm
  let uxw := cross u w
  let wxv := cross w v
  let first_term := sdiv uxw u_norm
  let second_term := sdiv wxv v_norm
  let row := (((zerosLike coords).set m first_term).set o
      (-first_term - second_term)).set n second_term
  (angle_rad, row)

/-- Embeds `RedundantCoords.calc_dihedral` with `grad=True` (ordered chain
`m`, `o`, `p`, `n`; the cosine is clamped to `[-1, 1]` before `arccos`).
The row assignments follow the source order: `m`, `n`, `o`, `p`. -/
def calc_dihedral (fns : NumFns) (coords : List V3) (ind : ℕ × ℕ × ℕ × ℕ) :
    ℚ × List V3 :=
  let m := ind.1
  let o := ind.2.1
  let p := ind.2.2.1
  let n := ind.2.2.2
  let u_dash := coords.getD m (0, 0, 0) - coords.getD o (0, 0, 0)
  let v_dash := coords.getD n (0, 0, 0) - coords.getD p (0, 0, 0)
  let w_dash := coords.getD p (0, 0, 0) - coords.getD o (0, 0, 0)
  let u_norm := fns.sqrtq (dot u_dash u_dash)
  let v_norm := fns.sqrtq (dot v_dash v_dash)
  let w_norm := fns.sqrtq (dot w_dash w_dash)
  let u := sdiv u_dash u_norm
  let v := sdiv v_dash v_norm
  let w := sdiv w_dash w_norm
  let phi_u := fns.arccosq (dot u w)
  let phi_v := fns.arccosq (dot w v)
  let uxw := cross u w
  let vxw := cross v w
  let cos_dihed0 := dot uxw vxw / (fns.sinq phi_u * fns.sinq phi_v)
  let cos_dihed := max (min cos_dihed0 1) (-1)
  let dihedral_rad := fns.arccosq cos_dihed
  let sin2_u := fns.sinq phi_u ^ 2
  let sin2_v := fns.sinq phi_v ^ 2
  let first_term := sdiv uxw (u_norm * sin2_u)
  let second_term := sdiv vxw (v_norm * sin2_v)
  let third_term :=
    sdiv (smulV (fns.cosq phi_u) uxw) (w_norm * sin2_u)
      - sdiv (smulV (fns.cosq phi_v) vxw) (w_norm * sin2_v)
  let row := ((((zerosLike coords).set m first_term).set n (-second_term)).set o
      (-first_term + third_term)).set p (second_term - third_term)
  (dihedral_rad, row)

/-- One primitive internal coordinate as the source's `PrimitiveCoord`
namedtuple: atom indices, scalar value, flattened gradient row. -/
structure PrimitiveCoord where
  inds : List ℕ
  val : ℚ
  grad : List ℚ
deriving DecidableEq

/-- Embeds `RedundantCoords.calculate`: all stretches, then all bends, then
all dihedrals, each as a `PrimitiveCoord` with its flattened gradient row. -/
def calculate (fns : NumFns) (coords3d : List V3) (bond_indices : List (ℕ × ℕ))
    (bending_indices : List (ℕ × ℕ × ℕ)) (dihedral_indices : List (List ℕ)) :
    List PrimitiveCoord :=
  (bond_indices.map fun bi =>
    let r := calc_stretch fns coords3d bi
    PrimitiveCoord.mk [bi.1, bi.2] r.1 (flatten3 r.2))
  ++ (bending_indices.map fun be =>
    let r := calc_bend fns coords3d be
    PrimitiveCoord.mk [be.1, be.2.1, be.2.2] r.1 (flatten3 r.2))
  ++ (dihedral_indices.map fun di =>
    let r := calc_dihedral fns coords3d
      (di.getD 0 0, di.getD 1 0, di.getD 2 0, di.getD 3 0)
    PrimitiveCoord.mk di r.1 (flatten3 r.2))

/-- Decay constant of `set_rho`'s local helper `get_alpha`: 1.0 when both
atoms are first-period (h, he), 0.3949 when exactly one is, 0.28 otherwise. -/
def get_alpha (atom1 atom2 : String) : ℚ :=
  let fp := ["h", "he"]
  if atom1 ∈ fp ∧ atom2 ∈ fp then 1
  else if atom1 ∈ fp ∨ atom2 ∈ fp then 3949 / 10000
  else 28 / 100

/-- Elementwise combination of two 1-d arrays under numpy's broadcasting rule
for shapes `(n,)` and `(m,)`: legal when the lengths agree or one of them is
1 (the singleton is stretched); otherwise numpy raises
`ValueError: operands could not be broadcast together`. -/
def broadcast2 (f : ℚ → ℚ → ℚ) (a b : List ℚ) : Except PyErr (List ℚ) :=
  if a.length = b.length then .ok (List.zipWith f a b)
  else if a.length = 1 then .ok (b.map (f (a.getD 0 0)))
  else if b.length = 1 then .ok (a.map (fun x => f x (b.getD 0 0)))
  else .error (.valueError "operands could not be broadcast together")

/-- Ceiling of the square root of a natural number, as
`int(np.ceil(np.sqrt(k)))` computes it in `scipy.spatial.distance.squareform`:
the least `d` with `k <= d * d`, found by a structural search (which always
succeeds within `k + 2` candidates, since `(k + 1)^2 > k`). -/
def ceilSqrt (k : ℕ) : ℕ :=
  (List.range (k + 2)).findIdx fun d => k ≤ d * d

/-- Position of the pair `(i, j)` (with `i < j`) in the condensed pair order
of a `d`-point set. -/
def condensedIndex (d i j : ℕ) : ℕ :=
  (comb2 (List.range d)).findIdx fun p => p.1 == i && p.2 == j

/-- Embeds `scipy.spatial.distance.squareform` on a condensed vector: checks
that the length is a binomial `d*(d-1)/2` (else `ValueError`) and lays the
vector out as a symmetric `d x d` matrix with zero diagonal.  The scipy check
`d*(d-1)/2 != K` is written `d*(d-1) != 2*K`; the two are equivalent because
`d*(d-1)` is even. -/
def squareform (vec : List ℚ) : Except PyErr (List (List ℚ)) :=
  let K := vec.length
  let d := ceilSqrt (2 * K)
  if d * (d - 1) ≠ 2 * K then .error (.valueError "Incompatible vector size.")
  else .ok ((List.range d).map fun i => (List.range d).map fun j =>
    if i = j then 0 else vec.getD (condensedIndex d (min i j) (max i j)) 0)

/-- Embeds `RedundantCoords.set_rho`.  The source computes
`squareform(np.exp(alphas * (cov_radii**2 - cdm**2)))`, where `alphas` and
`cdm` are per-pair vectors of length `N*(N-1)/2` while `cov_radii` is the
per-atom vector of length `N`; the two elementwise operations follow numpy
broadcasting (`broadcast2`).  `cdm**2` is the squared distance vector, exact
over `ℚ`. -/
def set_rho (fns : NumFns) (atoms : List String) (coords3d : List V3) :
    Except PyErr (List (List ℚ)) := do
  let alphas := (comb2 atoms).map fun p => get_alpha p.1 p.2
  let cov_radii := atoms.map CR
  let cdm2v := cdm2 coords3d
  let inner ← broadcast2 (· - ·) (cov_radii.map (· ^ 2)) cdm2v
  let outer ← broadcast2 (· * ·) alphas inner
  squareform (outer.map fns.expq)

/-- The state `RedundantCoords.__init__` leaves behind when construction
succeeds: the three primitive index lists, the evaluated primitives
(`self._coords`), and the rho matrix. -/
structure RC where
  bond_indices : List (ℕ × ℕ)
  bending_indices : List (ℕ × ℕ × ℕ)
  dihedral_indices : List (List ℕ)
  prim_coords : List PrimitiveCoord
  rho : List (List ℚ)

/-- Embeds `RedundantCoords.__init__`: `set_primitive_indices` (bonds, bends,
dihedrals in that order), then `calculate(self.geom.coords)`, then
`set_rho`. -/
def rcInit (fns : NumFns) (geom : Geom) : Except PyErr RC := do
  let bi ← set_bond_indices geom
  let bends ← set_bending_indices bi
  let dihs ← set_dihedral_indices bi bends
  let cs := calculate fns geom.coords3d bi bends dihs
  let rho ← set_rho fns geom.atoms geom.coords3d
  pure (RC.mk bi bends dihs cs rho)

/-- The Wilson B matrix (property `RedundantCoords.B`): the stacked flattened
gradient rows of all primitives. -/
def Bmat (rc : RC) : List (List ℚ) := rc.prim_coords.map (·.grad)

/-- Concrete water geometry (atoms o, h, h): O at the origin, both O-H
distances 1.814 Bohr (≈0.96 Å) and an H-O-H angle of ≈104.5 degrees
(`cos = -454/1814`), in atomic units. -/
def waterGeom : Geom :=
  { atoms := ["o", "h", "h"]
  , coords3d :=
      [(0, 0, 0), (1814 / 1000, 0, 0), (-454 / 1000, 17563 / 10000, 0)] }

/-- Follows the words of claim C9 (not the source), for comparison with
`set_rho`: a symmetric `N x N` matrix with zero diagonal whose entry `(i, j)`
is `exp(alpha * (r_cov_i^2 + r_cov_j^2 - d(i,j)^2))`. -/
def specRho (fns : NumFns) (atoms : List String) (coords3d : List V3) :
    List (List ℚ) :=
  let nA := atoms.length
  (List.range nA).map fun i => (List.range nA).map fun j =>
    if i = j then 0
    else
      fns.expq (get_alpha (atoms.getD i "") (atoms.getD j "") *
        ((CR (atoms.getD i "")) ^ 2 + (CR (atoms.getD j "")) ^ 2 -
          dist2 (coords3d.getD i (0, 0, 0)) (coords3d.getD j (0, 0, 0))))

/-- Elementwise difference of two flat vectors (`a - b` on equal-shape numpy
arrays). -/
def vsubL (a b : List ℚ) : List ℚ := List.zipWith (· - ·) a b

/-- Elementwise sum of two flat vectors (`a + b`). -/
def vaddL (a b : List ℚ) : List ℚ := List.zipWith (· + ·) a b

/-- The square of `rms(coords1, coords2) = sqrt(np.mean((coords1-coords2)**2))`
from `RedundantCoords.transform`; the embedding compares this square with the
squared threshold (see the file header). -/
def meanSq (c1 c2 : List ℚ) : ℚ :=
  ((vsubL c1 c2).map (· ^ 2)).sum / ((vsubL c1 c2).length : ℚ)

/-- Loop state of `RedundantCoords.transform`: `last_step`, `last_coords`,
`last_vals`. -/
structure TSt where
  step : List ℚ
  coords : List ℚ
  vals : List ℚ
deriving DecidableEq

/-- One body execution of the `for i in range(25)` loop of
`RedundantCoords.transform`, in source order: Cartesian step `B_inv.T @
last_step`, new coordinates, the step's RMS (squared here), new primitive
values, `last_step -= new_vals - last_vals`, advance coordinates and values.
Returns the updated state and the RMS square measured this cycle.  The two
functions the body reads from `self` are parameters: `cv` is
`lambda c: self.calculate(c, attr="val")` and `bt` is
`lambda s: self.B_inv.T.dot(s)`. -/
def transformBody (cv bt : List ℚ → List ℚ) (st : TSt) : TSt × ℚ :=
  let cartesian_step := bt st.step
  let new_coords := vaddL st.coords cartesian_step
  let ms := meanSq st.coords new_coords
  let new_vals := cv new_coords
  let new_step := vsubL st.step (vsubL new_vals st.vals)
  (TSt.mk new_step new_coords new_vals, ms)

/-- Plain iteration of the loop body, with no break bookkeeping; used to state
what the loop's final state is. -/
def bodyIter (cv bt : List ℚ → List ℚ) : ℕ → TSt → TSt
  | 0, st => st
  | k + 1, st => bodyIter cv bt k (transformBody cv bt st).1

/-- The loop of `RedundantCoords.transform` with `fuel` cycles remaining.
Returns the final state, the number of cycles executed, whether the
`cartesian_rms < cart_rms_thresh` break was taken (the source then prints
"Converged!"), and the RMS square measured in the last executed cycle.  With
one cycle of fuel left, breaking and falling off the `range` iterator leave
the same state, so only the reported flag differs. -/
def transformGo (cv bt : List ℚ → List ℚ) (th : ℚ) :
    ℕ → TSt → TSt × ℕ × Bool × ℚ
  | 0, st => (st, 0, false, 0)
  | 1, st =>
    let r := transformBody cv bt st
    (r.1, 1, decide (r.2 < th ^ 2), r.2)
  | k + 2, st =>
    let r := transformBody cv bt st
    if r.2 < th ^ 2 then (r.1, 1, true, r.2)
    else
      let s := transformGo cv bt th (k + 1) r.1
      (s.1, s.2.1 + 1, s.2.2.1, s.2.2.2)

/-- Everything observable about one call of `RedundantCoords.transform`. -/
structure TransformResult where
  /-- The Python return value.  The method falls off its end (the final
  `return last_coords` is commented out in the source), so it is `none` on
  every path. -/
  retval : Option (List ℚ)
  /-- `self.geom.coords` after the call: the source executes
  `self.geom.coords = last_coords` unconditionally after the loop. -/
  geomCoords : List ℚ
  /-- The contents of the array the caller passed as `step` after the call:
  `last_step = step` aliases it (no copy is taken) and `last_step -= ...`
  subtracts in place, so the caller's array holds the loop's final
  `last_step`. -/
  stepArg : List ℚ
  /-- Number of loop cycles executed. -/
  cycles : ℕ
  /-- Whether the break was taken (observable only as the "Converged!" print
  on stdout). -/
  printedConverged : Bool
  /-- Square of the `cartesian_rms` of the last executed cycle. -/
  lastRms2 : ℚ
deriving DecidableEq

/-- Embeds `RedundantCoords.transform` (iteration budget 25, default
threshold `1e-6`): evaluate the primitives at the current coordinates, run
the loop, then write the final coordinates into the geometry. -/
def transform (cv bt : List ℚ → List ℚ) (step coords0 : List ℚ)
    (cart_rms_thresh : ℚ := 1 / 1000000) : TransformResult :=
  let last_vals := cv coords0
  let r := transformGo cv bt cart_rms_thresh 25 (TSt.mk step coords0 last_vals)
  { retval := none
  , geomCoords := r.1.coords
  , stepArg := r.1.step
  , cycles := r.2.1
  , printedConverged := r.2.2.1
  , lastRms2 := r.2.2.2 }

/-- Toy primitive-value function for concrete runs: constant `[0]`
(a system whose internal coordinates do not respond to the step). -/
def cvZero : List ℚ → List ℚ := fun _ => [0]

/-- Toy `B_inv.T.dot` returning the constant Cartesian step `[1]`: every
cycle moves the single coordinate by 1, so the RMS never falls below the
threshold. -/
def btOne : List ℚ → List ℚ := fun _ => [1]

/-- Toy `B_inv.T.dot` returning the zero Cartesian step `[0]`: the first
cycle has RMS 0 and converges immediately. -/
def btZero : List ℚ → List ℚ := fun _ => [0]

/-- The attribute names any `DelocalizedCoords` instance can carry when
`set_delocalized_vectors` is first callable: `RedundantCoords.__init__`
assigns `geom`, `_coords`, `bond_indices`, `bending_indices`,
`dihedral_indices` and `rho`; the class additionally defines the read-only
properties `B` and `B_inv` (and methods).  No statement anywhere in the
repository assigns `B_prim`. -/
def delocalizedInstanceAttrs : List String :=
  ["geom", "_coords", "bond_indices", "bending_indices", "dihedral_indices",
   "rho", "B", "B_inv"]

/-- Embeds the first executable statement of
`DelocalizedCoords.set_delocalized_vectors` (line 382 of the source):
`G = self.B_prim.dot(self.B_prim.T)` begins by resolving the attribute
`B_prim`, which raises `AttributeError` when it is absent.  The remainder of
the method (the eigendecomposition of `G`, the `3N-6` count assertion and
the projection) sits behind this lookup and is unreachable for every
instance the repository can construct, so it is not modelled: the
`B_prim`-present branch returns a bare success token. -/
def set_delocalized_vectors (attrs : List String) : Except PyErr Unit :=
  if "B_prim" ∈ attrs then .ok ()
  else .error (.attributeError "B_prim")

/-- The three exponent values `alphas * (cov_radii**2 - cdm**2)` that
`set_rho` computes for `waterGeom` (note the positional pairing: condensed
pair `k` meets the radius of atom `k`): pair (0,1) with `r_0 = CR o`,
pair (0,2) with `r_1 = CR h`, pair (1,2) with `r_2 = CR h`. -/
def waterRhoExps : List ℚ :=
  [-(1730645301 : ℚ) / 2500000000,
   -(1162034986981 : ℚ) / 1000000000000,
   -(788031369 : ℚ) / 100000000]

/-- The rho matrix `set_rho` produces for `waterGeom`: `squareform` of
`waterRhoExps` mapped through `expq`. -/
def waterRho (fns : NumFns) : List (List ℚ) :=
  [[0, fns.expq (waterRhoExps.getD 0 0), fns.expq (waterRhoExps.getD 1 0)],
   [fns.expq (waterRhoExps.getD 0 0), 0, fns.expq (waterRhoExps.getD 2 0)],
   [fns.expq (waterRhoExps.getD 1 0), fns.expq (waterRhoExps.getD 2 0), 0]]

/-! ## Helper lemmas -/

/-- Evaluation of `set_rho` on the water geometry for an arbitrary function
record: the condensed exponent vector is `waterRhoExps`, the matrix its
`squareform` through `expq`. -/
theorem set_rho_water (fns : NumFns) :
    set_rho fns waterGeom.atoms waterGeom.coords3d = .ok (waterRho fns) := rfl

/-! ## Claim theorems -/

/-- C1: the claim says that when distance-threshold bond detection leaves
more than one connected fragment, construction repeatedly adds the globally
shortest inter-fragment bond until one fragment remains.  The code instead
raises `NameError` on every such geometry: line 149 calls
`connect_fragments(cdm, fragments)` as a bare name, and no module-level
function of that name exists (only the method
`RedundantCoords.connect_fragments`, which is never reached).  Evaluated here
on the concrete two-fragment geometry `fourHGeom`: no bond is ever added and
bond setup aborts with the `NameError`. -/
theorem set_bond_indices_fragmented_raises_nameError :
    set_bond_indices fourHGeom = .error (.nameError "connect_fragments") := by
  decide

/-- C7: the claim says the delocalized builder eigendecomposes
`G = B_prim @ B_prim.T`, selects eigenvectors above the threshold and
validates the `3N-6` count.  The code never gets that far: the first
statement of `set_delocalized_vectors` reads `self.B_prim`, an attribute no
statement in the repository ever assigns (`RedundantCoords` defines the
property `B`), so every call raises `AttributeError` before any
eigendecomposition; the count assertion is dead code. -/
theorem set_delocalized_vectors_raises_attributeError :
    set_delocalized_vectors delocalizedInstanceAttrs =
      .error (.attributeError "B_prim") := by
  decide

/-- C8: on the water geometry (O at origin, O-H 1.814 Bohr ≈ 0.96 Å, H-O-H
≈ 104.5 degrees), construction succeeds and yields exactly the stretches
`(O,H1)`, `(O,H2)`, exactly the bend `(H1,O,H2)`, no dihedral, and a B matrix
of 3 rows of length 9 — for every instantiation of the transcendental
function record. -/
theorem water_primitive_enumeration_and_B_shape (fns : NumFns) :
    (rcInit fns waterGeom).toOption.map (·.bond_indices) = some [(0, 1), (0, 2)] ∧
    (rcInit fns waterGeom).toOption.map (·.bending_indices) = some [(1, 0, 2)] ∧
    (rcInit fns waterGeom).toOption.map (·.dihedral_indices) = some [] ∧
    (rcInit fns waterGeom).toOption.map
      (fun rc => ((Bmat rc).length, (Bmat rc).map List.length)) =
      some (3, [9, 9, 9]) :=
  ⟨rfl, rfl, rfl, rfl⟩

/-- C9: the claim's formula `exp(alpha * (r_cov_i^2 + r_cov_j^2 - d(i,j)^2))`
(`specRho`) does not describe `set_rho`.  The code multiplies the per-atom
radius vector into the per-pair condensed vectors positionally, so entry
(0,1) of the water matrix is `exp(alpha_oh * (r_O^2 - d01^2))` with no
`r_H^2` term.  For every injective `expq` the two matrices differ on the
water geometry (the real `np.exp` is injective). -/
theorem set_rho_differs_from_claimed_formula (fns : NumFns)
    (hinj : Function.Injective fns.expq) :
    set_rho fns waterGeom.atoms waterGeom.coords3d ≠
      .ok (specRho fns waterGeom.atoms waterGeom.coords3d) := by
  intro h
  rw [set_rho_water fns] at h
  have h2 : waterRho fns = specRho fns waterGeom.atoms waterGeom.coords3d :=
    Except.ok.inj h
  have h3 := congrArg (fun m => (m.getD 0 []).getD 1 0) h2
  have h5 := hinj h3
  exact absurd h5 (by decide)

/-- Witness for C9 at the concrete record `idFns`, whose `expq` is the
identity and hence injective. -/
theorem set_rho_differs_from_claimed_formula_witness :
    Function.Injective idFns.expq ∧
      set_rho idFns waterGeom.atoms waterGeom.coords3d ≠
        .ok (specRho idFns waterGeom.atoms waterGeom.coords3d) :=
  ⟨Function.injective_id, set_rho_differs_from_claimed_formula idFns Function.injective_id⟩

/-- One `dihedralStep` preserves the dihedral-set bookkeeping: the second
state component is the elementwise unordered (`toFinset`) image of the first,
and it has no duplicates. -/
theorem dihedralStep_inv (st st1 : List (List ℕ) × List (Finset ℕ))
    (bo : ℕ × ℕ) (be : ℕ × ℕ × ℕ) (h : dihedralStep st bo be = .ok st1)
    (hmap : st.2 = st.1.map List.toFinset) (hnd : st.2.Nodup) :
    st1.2 = st1.1.map List.toFinset ∧ st1.2.Nodup := by
  unfold dihedralStep at h
  dsimp only at h
  split at h
  · split at h
    · next intersect heq =>
      split at h
      · split at h
        · cases h
          exact ⟨hmap, hnd⟩
        · next hmem =>
          cases h
          refine ⟨by simp [hmap], ?_⟩
          simp only [List.nodup_append, List.nodup_cons, List.nodup_nil,
            List.disjoint_singleton]
          exact ⟨hnd, by simp, by simpa using hmem⟩
      · split at h
        · cases h
          exact ⟨hmap, hnd⟩
        · next hmem =>
          cases h
          refine ⟨by simp [hmap], ?_⟩
          simp only [List.nodup_append, List.nodup_cons, List.nodup_nil,
            List.disjoint_singleton]
          exact ⟨hnd, by simp, by simpa using hmem⟩
    · exact Except.noConfusion h
  · cases h
    exact ⟨hmap, hnd⟩

/-- The fold of `dihedralStep` over any pair list preserves the bookkeeping
of `dihedralStep_inv`. -/
theorem dihedralFold_inv :
    ∀ (l : List ((ℕ × ℕ) × (ℕ × ℕ × ℕ))) (st st' : List (List ℕ) × List (Finset ℕ)),
      st.2 = st.1.map List.toFinset → st.2.Nodup →
      l.foldlM (fun st pr => dihedralStep st pr.1 pr.2) st = .ok st' →
      st'.2 = st'.1.map List.toFinset ∧ st'.2.Nodup := by
  intro l
  induction l with
  | nil =>
    intro st st' hmap hnd h
    cases h
    exact ⟨hmap, hnd⟩
  | cons pr rest ih =>
    intro st st' hmap hnd h
    simp only [List.foldlM_cons] at h
    cases hstep : dihedralStep st pr.1 pr.2 with
    | error e =>
      rw [hstep] at h
      exact Except.noConfusion h
    | ok st1 =>
      rw [hstep] at h
      have h1 := dihedralStep_inv st st1 pr.1 pr.2 hstep hmap hnd
      exact ih st1 st' h1.1 h1.2 h

/-- C5, counterexample: on the 3-cycle bond graph `{0,1}, {1,2}, {0,2}` (three
mutually bonded atoms, e.g. an H3 triangle), `set_bending_indices` emits three
bends — one per choice of central atom — and all three share the unordered
atom set `{0, 1, 2}`, so bends produced from a 3-cycle are not unique by
unordered atom-index set. -/
theorem bend_duplicate_unordered_sets_counterexample :
    set_bending_indices [(0, 1), (1, 2), (0, 2)] =
      .ok [(0, 1, 2), (1, 0, 2), (0, 2, 1)] ∧
    ¬ ([(0, 1, 2), (1, 0, 2), (0, 2, 1)].map
        (fun t : ℕ × ℕ × ℕ => ({t.1, t.2.1, t.2.2} : Finset ℕ))).Nodup := by
  exact ⟨by decide, by decide⟩

/-- C5, amended: dihedrals are deduplicated by unordered atom set (the source
keeps `dihedral_sets` and skips a candidate whose set was already emitted), so
for every bond and bend list the emitted dihedrals have pairwise distinct
unordered atom-index sets.  Bends carry no such guarantee: a 3-cycle yields
three bends with the identical unordered set (see the counterexample), one
per central atom. -/
theorem dihedral_unordered_sets_distinct (bond_indices : List (ℕ × ℕ))
    (bending_indices : List (ℕ × ℕ × ℕ)) (dihs : List (List ℕ))
    (h : set_dihedral_indices bond_indices bending_indices = .ok dihs) :
    (dihs.map List.toFinset).Nodup := by
  unfold set_dihedral_indices at h
  dsimp only at h
  cases hfold : (bond_indices.flatMap fun bo =>
      bending_indices.map fun be => (bo, be)).foldlM
      (fun st pr => dihedralStep st pr.1 pr.2)
      (([], []) : List (List ℕ) × List (Finset ℕ)) with
  | error e =>
    rw [hfold] at h
    exact Except.noConfusion h
  | ok st =>
    rw [hfold] at h
    have h1 := dihedralFold_inv _ _ _ (by simp) (by simp) hfold
    cases h
    exact h1.1 ▸ h1.2

/-- Witness for the dihedral-distinctness theorem on the fully bonded 4-atom
chain 0-1-2-3 (two bends, one dihedral). -/
theorem dihedral_unordered_sets_distinct_witness :
    set_dihedral_indices [(0, 1), (1, 2), (2, 3)] [(0, 1, 2), (1, 2, 3)] =
      .ok [[0, 1, 2, 3]] ∧
    ([[0, 1, 2, 3]].map List.toFinset).Nodup :=
  ⟨by decide,
    dihedral_unordered_sets_distinct [(0, 1), (1, 2), (2, 3)]
      [(0, 1, 2), (1, 2, 3)] [[0, 1, 2, 3]] (by decide)⟩

/-- The V3 zero triple is the zero of the product group. -/
theorem zeroV3 : ((0, 0, 0) : V3) = 0 := rfl

/-- Reading an entry a `set` wrote. -/
theorem getD_set_self_v3 (l : List V3) (i : ℕ) (a : V3) (h : i < l.length) :
    (l.set i a).getD i (0, 0, 0) = a := by
  rw [List.getD_eq_getElem?_getD,
    List.getElem?_eq_getElem (by simpa using h), Option.getD_some,
    List.getElem_set_self]

/-- Reading an entry a `set` did not touch. -/
theorem getD_set_ne_v3 (l : List V3) (i j : ℕ) (a : V3) (h : i ≠ j) :
    (l.set i a).getD j (0, 0, 0) = l.getD j (0, 0, 0) := by
  rw [List.getD_eq_getElem?_getD, List.getD_eq_getElem?_getD,
    List.getElem?_set_ne h]

/-- Entries of the all-zero row template. -/
theorem getD_zerosLike (cl : List V3) (i : ℕ) :
    (zerosLike cl).getD i (0, 0, 0) = (0, 0, 0) := by
  unfold zerosLike
  rw [List.getD_eq_getElem?_getD, List.getElem?_replicate]
  split <;> rfl

/-- The sum of the all-zero row template. -/
theorem sum_zerosLike (cl : List V3) : (zerosLike cl).sum = 0 := by
  simp [zerosLike, List.sum_replicate, zeroV3]

/-- Summing a list after `set`: the old entry is replaced by the new one. -/
theorem sum_set_v3 :
    ∀ (l : List V3) (i : ℕ) (v : V3), i < l.length →
      (l.set i v).sum = l.sum - l.getD i (0, 0, 0) + v := by
  intro l
  induction l with
  | nil => intro i v h; simp at h
  | cons x xs ih =>
    intro i v h
    cases i with
    | zero =>
      simp [List.sum_cons, List.getD_cons_zero]
      abel
    | succ i =>
      simp only [List.set_cons_succ, List.sum_cons, List.length_cons,
        Nat.add_lt_add_iff_right] at h ⊢
      rw [ih i v h, List.getD_cons_succ]
      abel

/-- Length of the all-zero row template. -/
theorem len_zerosLike (cl : List V3) : (zerosLike cl).length = cl.length := by
  simp [zerosLike]

/-- Sum of a zero row with two entries written (the stretch row shape). -/
theorem sum_set2 (cl : List V3) (i j : ℕ) (a b : V3) (hij : i ≠ j)
    (hi : i < cl.length) (hj : j < cl.length) :
    (((zerosLike cl).set i a).set j b).sum = a + b := by
  rw [sum_set_v3 _ j b (by simp [len_zerosLike, hj]),
    sum_set_v3 _ i a (by simp [len_zerosLike, hi]),
    sum_zerosLike, getD_zerosLike, getD_set_ne_v3 _ _ _ _ hij, getD_zerosLike,
    zeroV3]
  abel

/-- Sum of a zero row with three entries written (the bend row shape). -/
theorem sum_set3 (cl : List V3) (i j k : ℕ) (a b c : V3)
    (hij : i ≠ j) (hik : i ≠ k) (hjk : j ≠ k)
    (hi : i < cl.length) (hj : j < cl.length) (hk : k < cl.length) :
    ((((zerosLike cl).set i a).set j b).set k c).sum = a + b + c := by
  rw [sum_set_v3 _ k c (by simp [len_zerosLike, hk]),
    sum_set_v3 _ j b (by simp [len_zerosLike, hj]),
    sum_set_v3 _ i a (by simp [len_zerosLike, hi]),
    sum_zerosLike, getD_zerosLike,
    getD_set_ne_v3 _ _ _ _ hjk, getD_set_ne_v3 _ _ _ _ hik, getD_zerosLike,
    getD_set_ne_v3 _ _ _ _ hij, getD_zerosLike, zeroV3]
  abel

/-- Sum of a zero row with four entries written (the dihedral row shape). -/
theorem sum_set4 (cl : List V3) (i j k r : ℕ) (a b c d : V3)
    (hij : i ≠ j) (hik : i ≠ k) (hir : i ≠ r)
    (hjk : j ≠ k) (hjr : j ≠ r) (hkr : k ≠ r)
    (hi : i < cl.length) (hj : j < cl.length) (hk : k < cl.length)
    (hr : r < cl.length) :
    (((((zerosLike cl).set i a).set j b).set k c).set r d).sum =
      a + b + c + d := by
  rw [sum_set_v3 _ r d (by simp [len_zerosLike, hr]),
    sum_set_v3 _ k c (by simp [len_zerosLike, hk]),
    sum_set_v3 _ j b (by simp [len_zerosLike, hj]),
    sum_set_v3 _ i a (by simp [len_zerosLike, hi]),
    sum_zerosLike, getD_zerosLike,
    getD_set_ne_v3 _ _ _ _ hkr, getD_set_ne_v3 _ _ _ _ hjr,
    getD_set_ne_v3 _ _ _ _ hir, getD_zerosLike,
    getD_set_ne_v3 _ _ _ _ hjk, getD_set_ne_v3 _ _ _ _ hik, getD_zerosLike,
    getD_set_ne_v3 _ _ _ _ hij, getD_zerosLike, zeroV3]
  abel

/-- C6: translational invariance of the primitive gradient rows, for every
coordinate set, every instantiation of the transcendental record and all
distinct in-range atom indices: the per-atom 3-vector blocks of a stretch row
sum to zero with the two blocks negatives of each other; the three blocks of
a bend row sum to zero with the center block the negated sum of the terminal
blocks; the four blocks of a dihedral row sum to zero. -/
theorem gradient_rows_translationally_invariant (fns : NumFns)
    (coords : List V3)
    (s1 s2 : ℕ) (hs : s1 ≠ s2) (hs1 : s1 < coords.length)
    (hs2 : s2 < coords.length)
    (m o n : ℕ) (hmo : m ≠ o) (hmn : m ≠ n) (hon : o ≠ n)
    (hm : m < coords.length) (ho : o < coords.length) (hn : n < coords.length)
    (md od pd nd : ℕ) (h1 : md ≠ od) (h2 : md ≠ pd) (h3 : md ≠ nd)
    (h4 : od ≠ pd) (h5 : od ≠ nd) (h6 : pd ≠ nd)
    (hmd : md < coords.length) (hod : od < coords.length)
    (hpd : pd < coords.length) (hnd2 : nd < coords.length) :
    ((calc_stretch fns coords (s1, s2)).2.sum = 0 ∧
      (calc_stretch fns coords (s1, s2)).2.getD s2 (0, 0, 0) =
        -(calc_stretch fns coords (s1, s2)).2.getD s1 (0, 0, 0)) ∧
    ((calc_bend fns coords (m, o, n)).2.sum = 0 ∧
      (calc_bend fns coords (m, o, n)).2.getD o (0, 0, 0) =
        -((calc_bend fns coords (m, o, n)).2.getD m (0, 0, 0) +
          (calc_bend fns coords (m, o, n)).2.getD n (0, 0, 0))) ∧
    (calc_dihedral fns coords (md, od, pd, nd)).2.sum = 0 := by
  refine ⟨⟨?_, ?_⟩, ⟨?_, ?_⟩, ?_⟩
  · unfold calc_stretch
    dsimp only
    rw [sum_set2 coords s2 s1 _ _ (Ne.symm hs) hs2 hs1]
    abel
  · unfold calc_stretch
    dsimp only
    rw [getD_set_ne_v3 _ _ _ _ hs,
      getD_set_self_v3 _ _ _ (by simp [len_zerosLike, hs2]),
      getD_set_self_v3 _ _ _ (by simp [len_zerosLike, hs1]), neg_neg]
  · unfold calc_bend
    dsimp only
    rw [sum_set3 coords m o n _ _ _ hmo hmn hon hm ho hn]
    abel
  · unfold calc_bend
    dsimp only
    rw [getD_set_ne_v3 _ _ _ _ (Ne.symm hon),
      getD_set_self_v3 _ _ _ (by simp [len_zerosLike, ho]),
      getD_set_ne_v3 _ _ _ _ (Ne.symm hmn),
      getD_set_ne_v3 _ _ _ _ (Ne.symm hmo),
      getD_set_self_v3 _ _ _ (by simp [len_zerosLike, hm]),
      getD_set_self_v3 _ _ _ (by simp [len_zerosLike, hn])]
    abel
  · unfold calc_dihedral
    dsimp only
    rw [sum_set4 coords md nd od pd _ _ _ _ h3 h1 h2 (Ne.symm h5)
      (Ne.symm h6) h4 hmd hnd2 hod hpd]
    abel

/-- Witness for the gradient-row theorem on a concrete 4-atom tetrahedral
coordinate set with the identity function record. -/
theorem gradient_rows_translationally_invariant_witness :
    ((0 : ℕ) ≠ 1 ∧ (0 : ℕ) < 4 ∧
      ((calc_stretch idFns
        [((0 : ℚ), (0 : ℚ), (0 : ℚ)), (1, 0, 0), (0, 1, 0), (0, 0, 1)]
        (0, 1)).2.sum = 0)) := by
  refine ⟨by decide, by decide, ?_⟩
  exact (gradient_rows_translationally_invariant idFns
    [((0 : ℚ), (0 : ℚ), (0 : ℚ)), (1, 0, 0), (0, 1, 0), (0, 0, 1)]
    0 1 (by decide) (by decide) (by decide)
    0 1 2 (by decide) (by decide) (by decide) (by decide) (by decide) (by decide)
    0 1 2 3 (by decide) (by decide) (by decide) (by decide) (by decide)
    (by decide) (by decide) (by decide) (by decide) (by decide)).1.1

/-- Behaviour of the back-transform loop for any positive fuel: the final
state is the plain body iterate at the reported cycle count, at least one and
at most `fuel` cycles run, the break flag is reported exactly when the last
measured RMS square beat the threshold square, and without a break the loop
uses its whole fuel. -/
theorem transformGo_spec (cv bt : List ℚ → List ℚ) (th : ℚ) :
    ∀ (fuel : ℕ) (st : TSt), 1 ≤ fuel →
      (transformGo cv bt th fuel st).1 =
          bodyIter cv bt (transformGo cv bt th fuel st).2.1 st ∧
        1 ≤ (transformGo cv bt th fuel st).2.1 ∧
        (transformGo cv bt th fuel st).2.1 ≤ fuel ∧
        ((transformGo cv bt th fuel st).2.2.1 = true ↔
          (transformGo cv bt th fuel st).2.2.2 < th ^ 2) ∧
        ((transformGo cv bt th fuel st).2.2.1 = false →
          (transformGo cv bt th fuel st).2.1 = fuel) := by
  intro fuel
  induction fuel using Nat.strong_induction_on with
  | _ fuel ih =>
    rcases fuel with _ | (_ | k)
    · intro st h
      exact absurd h (by omega)
    · intro st _
      refine ⟨rfl, ?_, ?_, ?_, fun _ => rfl⟩ <;>
        simp [transformGo, bodyIter]
    · intro st _
      simp only [transformGo]
      split
      · next hms =>
        refine ⟨rfl, ?_, ?_, ?_, ?_⟩ <;> simp [bodyIter, hms]
      · next hms =>
        have h1 := ih (k + 1) (by omega) (transformBody cv bt st).1 (by omega)
        dsimp only
        refine ⟨?_, by omega, by omega, h1.2.2.2.1, ?_⟩
        · rw [h1.1]
          rfl
        · intro hc
          have := h1.2.2.2.2 hc
          omega

/-- C3, counterexample: two concrete runs of `transform` — one that never
meets the RMS threshold and exhausts all 25 cycles (constant unit Cartesian
step), one that converges on its first cycle (zero Cartesian step) — return
the identical value `None`.  The return value carries no convergence status;
the only success signal is a print to stdout, which a caller cannot check. -/
theorem transform_returns_no_status_counterexample :
    (transform cvZero btOne [1] [0] (1 / 1000000)).printedConverged = false ∧
    (transform cvZero btOne [1] [0] (1 / 1000000)).cycles = 25 ∧
    (transform cvZero btZero [1] [0] (1 / 1000000)).printedConverged = true ∧
    (transform cvZero btOne [1] [0] (1 / 1000000)).retval =
      (transform cvZero btZero [1] [0] (1 / 1000000)).retval := by
  decide

/-- C4, counterexample: in the 25-cycle non-converging run of the C3
counterexample, the geometry coordinates are overwritten with the final
iterate `[25]` even though the threshold was never met — the unconditional
`self.geom.coords = last_coords` after the loop mutates the caller-visible
geometry on non-convergence, where the claim says it must stay `[0]`. -/
theorem transform_nonconverged_mutation_counterexample :
    (transform cvZero btOne [1] [0] (1 / 1000000)).printedConverged = false ∧
    (transform cvZero btOne [1] [0] (1 / 1000000)).geomCoords = [25] ∧
    ([(25 : ℚ)] ≠ ([0] : List ℚ)) := by
  decide

/-- C3, amended: `transform` breaks out of its loop exactly when a cycle's
Cartesian RMS falls below the threshold (squares compared, see the header)
and otherwise runs all 25 budgeted cycles — but it returns `None` either way
(the `return last_coords` is commented out), printing "Converged!" to stdout
as the only signal, so the caller cannot check convergence from the returned
value. -/
theorem transform_budget_break_and_none_return (cv bt : List ℚ → List ℚ)
    (step coords0 : List ℚ) (th : ℚ) :
    (transform cv bt step coords0 th).retval = none ∧
    1 ≤ (transform cv bt step coords0 th).cycles ∧
    (transform cv bt step coords0 th).cycles ≤ 25 ∧
    ((transform cv bt step coords0 th).printedConverged = true ↔
      (transform cv bt step coords0 th).lastRms2 < th ^ 2) ∧
    ((transform cv bt step coords0 th).printedConverged = false →
      (transform cv bt step coords0 th).cycles = 25) := by
  have h := transformGo_spec cv bt th 25 (TSt.mk step coords0 (cv coords0))
    (by omega)
  exact ⟨rfl, h.2.1, h.2.2.1, h.2.2.2.1, h.2.2.2.2⟩

/-- C4, amended: `transform` writes the loop's final iterate into the
geometry's coordinates unconditionally — after the break when it converges,
after all 25 cycles when it does not (see the counterexample); only in the
converged case is this the claim's "final iterate x" semantics. -/
theorem transform_always_writes_final_iterate (cv bt : List ℚ → List ℚ)
    (step coords0 : List ℚ) (th : ℚ) :
    (transform cv bt step coords0 th).geomCoords =
      (bodyIter cv bt (transform cv bt step coords0 th).cycles
        (TSt.mk step coords0 (cv coords0))).coords := by
  have h := transformGo_spec cv bt th 25 (TSt.mk step coords0 (cv coords0))
    (by omega)
  exact congrArg TSt.coords h.1

/-- Length of an elementwise difference. -/
theorem length_vsubL (a b : List ℚ) :
    (vsubL a b).length = min a.length b.length := by
  simp [vsubL]

/-- Subtracting a vector's self-difference is the identity. -/
theorem vsub_self_cancel (a b : List ℚ) (h : b.length = a.length) :
    vsubL a (vsubL b b) = a := by
  apply List.ext_getElem
  · simp [length_vsubL, h]
  · intro i h1 h2
    simp only [vsubL, List.getElem_zipWith]
    ring

/-- Residual telescoping: `(a - (b - c)) - (d - b) = a - (d - c)`
elementwise, for equal-length vectors. -/
theorem vsub_telescope (a b c d : List ℚ) (hb : b.length = a.length)
    (hc : c.length = a.length) (hd : d.length = a.length) :
    vsubL (vsubL a (vsubL b c)) (vsubL d b) = vsubL a (vsubL d c) := by
  apply List.ext_getElem
  · simp [length_vsubL, hb, hc, hd]
  · intro i h1 h2
    simp only [vsubL, List.getElem_zipWith]
    ring

/-- The loop body never changes the length of the primitive-value vector
(it is always an output of `cv`). -/
theorem bodyIter_vals_length (cv bt : List ℚ → List ℚ) (L : ℕ)
    (hcv : ∀ c, (cv c).length = L) :
    ∀ (k : ℕ) (st : TSt), st.vals.length = L →
      (bodyIter cv bt k st).vals.length = L := by
  intro k
  induction k with
  | zero => intro st h; exact h
  | succ k ih =>
    intro st _
    exact ih (transformBody cv bt st).1 (hcv _)

/-- Telescoping of the in-place step updates: after `k` body executions the
step vector equals the original step minus the total achieved change in
primitive values. -/
theorem bodyIter_step_residual (cv bt : List ℚ → List ℚ) (L : ℕ)
    (hcv : ∀ c, (cv c).length = L) :
    ∀ (k : ℕ) (st : TSt), st.step.length = L → st.vals.length = L →
      (bodyIter cv bt k st).step =
        vsubL st.step (vsubL (bodyIter cv bt k st).vals st.vals) := by
  intro k
  induction k with
  | zero =>
    intro st hs hv
    exact (vsub_self_cancel st.step st.vals (by rw [hv, hs])).symm
  | succ k ih =>
    intro st hs hv
    have hs' : (transformBody cv bt st).1.step.length = L := by
      simp [transformBody, length_vsubL, hs, hv, hcv]
    have hv' : (transformBody cv bt st).1.vals.length = L := hcv _
    have h1 := ih (transformBody cv bt st).1 hs' hv'
    show (bodyIter cv bt k (transformBody cv bt st).1).step = _
    rw [h1]
    show vsubL (vsubL st.step (vsubL (cv (vaddL st.coords (bt st.step))) st.vals))
        (vsubL (bodyIter cv bt k (transformBody cv bt st).1).vals
          (cv (vaddL st.coords (bt st.step)))) = _
    rw [vsub_telescope st.step (cv (vaddL st.coords (bt st.step))) st.vals
      (bodyIter cv bt k (transformBody cv bt st).1).vals
      (by rw [hcv _, hs]) (by rw [hv, hs])
      (by rw [bodyIter_vals_length cv bt L hcv k _ (hcv _), hs])]
    rfl

/-- C10: `last_step = step` aliases the caller's array and `last_step -= ...`
subtracts in place, so after `transform` returns the array passed as `step`
holds the final residual displacement: the original step minus the total
change in primitive values achieved over the executed cycles — not the
original step.  Stated for any `cv` whose output length matches the step
vector (in the source both have one entry per primitive). -/
theorem transform_step_array_holds_final_residual (cv bt : List ℚ → List ℚ)
    (step coords0 : List ℚ) (th : ℚ) (L : ℕ)
    (hcv : ∀ c, (cv c).length = L) (hstep : step.length = L) :
    (transform cv bt step coords0 th).stepArg =
      vsubL step
        (vsubL
          (bodyIter cv bt (transform cv bt step coords0 th).cycles
            (TSt.mk step coords0 (cv coords0))).vals
          (cv coords0)) := by
  have hgo := transformGo_spec cv bt th 25 (TSt.mk step coords0 (cv coords0))
    (by omega)
  show (transformGo cv bt th 25 (TSt.mk step coords0 (cv coords0))).1.step = _
  rw [congrArg TSt.step hgo.1]
  exact bodyIter_step_residual cv bt L hcv _
    (TSt.mk step coords0 (cv coords0)) hstep (hcv _)

/-- Witness for the residual theorem in the concrete non-converging run of
the C3 counterexample: the constant-value `cvZero` has output length 1, and
the caller's step array afterwards holds the telescoped residual. -/
theorem transform_step_array_holds_final_residual_witness :
    (∀ c : List ℚ, (cvZero c).length = 1) ∧
    (transform cvZero btOne [1] [0] (1 / 1000000)).stepArg =
      vsubL [1]
        (vsubL
          (bodyIter cvZero btOne
            (transform cvZero btOne [1] [0] (1 / 1000000)).cycles
            (TSt.mk [1] [0] (cvZero [0]))).vals
          (cvZero [0])) :=
  ⟨fun _ => rfl,
    transform_step_array_holds_final_residual cvZero btOne [1] [0]
      (1 / 1000000) 1 (fun _ => rfl) rfl⟩

/-- Bind on a success is application. -/
theorem bind_ok_exc {ε α β : Type} (a : α) (f : α → Except ε β) :
    (Except.ok a : Except ε α) >>= f = f a := rfl

/-- Bind on a failure propagates the failure. -/
theorem bind_error_exc {ε α β : Type} (e : ε) (f : α → Except ε β) :
    (Except.error e : Except ε α) >>= f = .error e := rfl

/-- Twice the number of unordered pairs of a list is `n * (n - 1)`. -/
theorem comb2_length2 {α : Type} (l : List α) :
    2 * (comb2 l).length = l.length * (l.length - 1) := by
  induction l with
  | nil => rfl
  | cons x xs ih =>
    simp only [comb2, List.length_append, List.length_map, List.length_cons]
    cases hn : xs.length with
    | zero =>
      rw [hn] at ih
      simp at ih
      simp [ih]
    | succ m =>
      have hih : 2 * (comb2 xs).length = (m + 1) * m := by
        rw [hn] at ih
        simpa using ih
      have hexp : (m + 1 + 1) * (m + 1 + 1 - 1) = (m + 1) * m + 2 * (m + 1) := by
        simp only [Nat.add_sub_cancel]
        ring
      omega

/-- With at most one atom there are no bonded pairs, and
`merge_fragments` pops from the empty fragment list (`IndexError`). -/
theorem set_bond_indices_small (atoms : List String) (coords : List V3)
    (h : coords.length ≤ 1) :
    set_bond_indices (Geom.mk atoms coords) =
      .error (.indexError "pop from empty list") := by
  rcases coords with _ | ⟨v, _ | ⟨w, rest⟩⟩
  · rfl
  · rfl
  · simp at h

/-- For exactly two atoms the broadcasts succeed but `squareform` receives a
length-2 vector, which is not a binomial, and raises. -/
theorem set_rho_two_atoms (fns : NumFns) (a1 a2 : String) (c1 c2 : V3) :
    exceptIsError (set_rho fns [a1, a2] [c1, c2]) = true := rfl

/-- For four or more atoms the radius vector (length `N`) and the condensed
vector (length `N*(N-1)/2 > N`) cannot be broadcast, and `set_rho` raises. -/
theorem set_rho_big (fns : NumFns) (atoms : List String) (coords3d : List V3)
    (hlen : coords3d.length = atoms.length) (h4 : 4 ≤ atoms.length) :
    exceptIsError (set_rho fns atoms coords3d) = true := by
  have hM : 2 * (comb2 coords3d).length = atoms.length * (atoms.length - 1) := by
    rw [comb2_length2, hlen]
  have h12 : 12 ≤ atoms.length * (atoms.length - 1) :=
    le_trans (by norm_num : (12 : ℕ) ≤ 4 * 3)
      (Nat.mul_le_mul (by omega) (by omega))
  have hMge : 6 ≤ (comb2 coords3d).length := by omega
  have hMne : (comb2 coords3d).length ≠ atoms.length := by
    intro he
    have hmm : atoms.length * (atoms.length - 1) = atoms.length * 2 := by omega
    have := Nat.eq_of_mul_eq_mul_left (show 0 < atoms.length by omega) hmm
    omega
  have hbr : broadcast2 (· - ·) ((atoms.map CR).map (· ^ 2)) (cdm2 coords3d) =
      .error (.valueError "operands could not be broadcast together") := by
    unfold broadcast2
    rw [if_neg, if_neg, if_neg]
    · show ¬(cdm2 coords3d).length = 1
      simp only [cdm2, List.length_map]
      omega
    · show ¬((atoms.map CR).map (· ^ 2)).length = 1
      simp only [List.length_map]
      omega
    · show ¬((atoms.map CR).map (· ^ 2)).length = (cdm2 coords3d).length
      simp only [cdm2, List.length_map]
      exact fun he => hMne he.symm
  unfold set_rho
  dsimp only
  rw [hbr, bind_error_exc]
  rfl

/-- C2: for every well-formed geometry whose atom count is not 3,
`RedundantCoords.__init__` raises instead of returning an engine: with at
most one atom the fragment merge pops from an empty list (`IndexError`); with
exactly two atoms `squareform` rejects the length-2 broadcast result; with
four or more the `(N,)` by `(N*(N-1)/2,)` elementwise product is a broadcast
`ValueError`.  Only `N = 3` satisfies `N*(N-1)/2 = N` and can pass
`set_rho`. -/
theorem rcInit_fails_when_atom_count_ne_three (fns : NumFns) (g : Geom)
    (hwf : geomWellFormed g) (h3 : g.atoms.length ≠ 3) :
    exceptIsError (rcInit fns g) = true := by
  have hwf2 : g.coords3d.length = g.atoms.length := hwf
  by_cases hsmall : g.coords3d.length ≤ 1
  · obtain ⟨atoms, coords⟩ := g
    unfold rcInit
    rw [set_bond_indices_small atoms coords hsmall, bind_error_exc]
    rfl
  · cases hb : set_bond_indices g with
    | error e =>
      unfold rcInit
      rw [hb, bind_error_exc]
      rfl
    | ok bi =>
      cases hbe : set_bending_indices bi with
      | error e =>
        unfold rcInit
        rw [hb, bind_ok_exc, hbe, bind_error_exc]
        rfl
      | ok bends =>
        cases hdi : set_dihedral_indices bi bends with
        | error e =>
          unfold rcInit
          rw [hb, bind_ok_exc, hbe, bind_ok_exc, hdi, bind_error_exc]
          rfl
        | ok dihs =>
          have hrho : exceptIsError (set_rho fns g.atoms g.coords3d) = true := by
            rcases Nat.lt_or_ge g.atoms.length 3 with hlt | hge
            · have hN2 : g.atoms.length = 2 := by omega
              have hC2 : g.coords3d.length = 2 := by omega
              obtain ⟨a1, a2, ha⟩ := List.length_eq_two.mp hN2
              obtain ⟨c1, c2, hc⟩ := List.length_eq_two.mp hC2
              rw [ha, hc]
              exact set_rho_two_atoms fns a1 a2 c1 c2
            · exact set_rho_big fns g.atoms g.coords3d hwf2 (by omega)
          cases hrho2 : set_rho fns g.atoms g.coords3d with
          | ok m =>
            rw [hrho2] at hrho
            exact absurd hrho (by simp [exceptIsError])
          | error e =>
            unfold rcInit
            rw [hb, bind_ok_exc, hbe, bind_ok_exc, hdi, bind_ok_exc]
            dsimp only
            rw [hrho2, bind_error_exc]
            rfl

/-- Witness for C2 on a connected four-hydrogen chain (spacing 1 Bohr, all
neighbours bonded): bonds, bends and dihedrals all succeed, and construction
still dies in `set_rho`'s broadcast. -/
theorem rcInit_fails_when_atom_count_ne_three_witness :
    geomWellFormed
        (Geom.mk ["h", "h", "h", "h"]
          [(0, 0, 0), (1, 0, 0), (2, 0, 0), (3, 0, 0)]) ∧
      (Geom.mk ["h", "h", "h", "h"]
          [((0 : ℚ), (0 : ℚ), (0 : ℚ)), (1, 0, 0), (2, 0, 0),
            (3, 0, 0)]).atoms.length ≠ 3 ∧
      exceptIsError
        (rcInit idFns
          (Geom.mk ["h", "h", "h", "h"]
            [(0, 0, 0), (1, 0, 0), (2, 0, 0), (3, 0, 0)])) = true :=
  ⟨rfl, by decide,
    rcInit_fails_when_atom_count_ne_three idFns
      (Geom.mk ["h", "h", "h", "h"]
        [(0, 0, 0), (1, 0, 0), (2, 0, 0), (3, 0, 0)])
      rfl (by decide)⟩
